import Mathlib

/-!
Verification of the Noir code-generation backend (`src/packages/compiler/src/noir.rs`)
of the `noir-zk-regex` compiler.

The Rust function `to_noir_fn` takes a `RegexAndDFA` value and a `gen_substrs`
flag and produces the text of a Noir program made of a `next_state` transition
evaluator and a `regex_match` entry point.  This development embeds:

* the input data model (`RegexAndDFA`, states, transitions, substring ranges);
  the Rust collections `BTreeMap`/`BTreeSet` are modelled as lists carrying
  their (ascending) iteration order, and byte values (`u8`) as `Nat`;
* the range-compression loop that turns a byte set into `rows` of closed
  intervals (noir.rs lines 53-97);
* the guarded-rule chain that the generated `next_state` function consists of,
  as a small defunctionalised IR (`Rule`) together with its top-to-bottom,
  first-match-wins evaluator (`evalChain`, mirroring the generated if/else-if
  chain of noir.rs lines 117-181 and the generated function templates at
  lines 184-214);
* the semantics of the generated `regex_match` loop, with and without
  substring extraction (noir.rs lines 230-352);
* the text emitter itself (`to_noir_fn`), a faithful transcription of the
  string assembly, with the `assert!` on the accept-state count modelled as
  an `Option` (`none` = fatal generation-time abort).
-/

/-- One DFA state as consumed by `to_noir_fn`: an identity, a type tag
(`"accept"` or not), and its outgoing transitions.  The Rust field
`transitions : BTreeMap<usize, BTreeSet<u8>>` (target state id, byte set) is
modelled as an association list in iteration order; byte sets are lists. -/
structure DFAStateModel where
  state_id : Nat
  state_type : String
  transitions : List (Nat × List Nat)
deriving Repr, DecidableEq

/-- The DFA: an ordered collection of states (Rust `Vec<State>`). -/
structure DFAGraph where
  states : List DFAStateModel
deriving Repr, DecidableEq

/-- The capture-group specification consumed by `to_noir_fn`:
`substring_ranges : Vec<BTreeSet<(usize, usize)>>`, one set of
(fromState, toState) transition pairs per capture group. -/
structure SubstringDefinitionsModel where
  substring_ranges : List (List (Nat × Nat))
deriving Repr, DecidableEq

/-- The aggregate input of `to_noir_fn`: regex source text, the DFA, the
end-anchor flag and the capture-group spec. -/
structure RegexAndDFA where
  regex_pattern : String
  dfa : DFAGraph
  has_end_anchor : Bool
  substrings : SubstringDefinitionsModel
deriving Repr, DecidableEq

/-- `ACCEPT_STATE_ID` from noir.rs line 7. -/
def ACCEPT_STATE_ID : String := "accept"

/-- The sorted byte list fed to the range-compression loop:
`let mut sorted_chars : Vec<&u8> = tran.iter().collect(); sorted_chars.sort();`
(noir.rs lines 57-58).  Any correct ascending sort models `.sort()`; a
structurally recursive insertion sort is used so the model evaluates. -/
def sortBytes (l : List Nat) : List Nat := List.insertionSort (· ≤ ·) l

/-- One step of the range-compression loop of noir.rs lines 63-85.  The
accumulator holds the rows pushed so far and the pair
(`current_range_start`, `previous_char`); in the Rust both options are
always `Some`/`None` together, so they are carried as one option. -/
def rangeStep (acc : List (Nat × Nat) × Option (Nat × Nat)) (char_code : Nat) :
    List (Nat × Nat) × Option (Nat × Nat) :=
  match acc with
  | (rows, some (start, prev)) =>
      if char_code = prev + 1 then
        (rows, some (start, char_code))
      else
        (rows ++ [(start, prev)], some (char_code, char_code))
  | (rows, none) => (rows, some (char_code, char_code))

/-- Pushing the last range or single character (noir.rs lines 87-95). -/
def rangeFinish : List (Nat × Nat) × Option (Nat × Nat) → List (Nat × Nat)
  | (rows, some (start, prev)) => rows ++ [(start, prev)]
  | (rows, none) => rows

/-- The complete range compression of one (already sorted) byte list: the
closed intervals pushed for it into `rows` by noir.rs lines 60-95. -/
def compressRanges (sorted_chars : List Nat) : List (Nat × Nat) :=
  rangeFinish (sorted_chars.foldl rangeStep ([], none))

/-- One element of the Rust `rows` vector (noir.rs line 53):
`(curr_state, char_start, char_end, next_state)`. -/
structure Row where
  curr_state : Nat
  char_start : Nat
  char_end : Nat
  next_state : Nat
deriving Repr, DecidableEq

/-- The rows contributed by a single state: for each outgoing transition, the
compressed ranges of its (sorted) byte set (noir.rs lines 55-97). -/
def stateRows (st : DFAStateModel) : List Row :=
  st.transitions.flatMap fun t =>
    (compressRanges (sortBytes t.2)).map fun r =>
      { curr_state := st.state_id, char_start := r.1, char_end := r.2,
        next_state := t.1 }

/-- The full `rows` vector: the per-state rows in DFA iteration order. -/
def transitionRows (rd : RegexAndDFA) : List Row :=
  rd.dfa.states.flatMap stateRows

/-- `first_transitions` (noir.rs lines 101-106): the rows out of state 0,
disregarding any row whose `char_start` is the sentinel byte 255, projected
to (char_start, char_end, next_state). -/
def firstTransitions (rd : RegexAndDFA) : List (Nat × Nat × Nat) :=
  ((transitionRows rd).filter
      (fun r => r.curr_state == 0 && r.char_start != 255)).map
    fun r => (r.char_start, r.char_end, r.next_state)

/-- The accept-state identities found in the input DFA (noir.rs lines 35-42). -/
def originalAcceptIds (rd : RegexAndDFA) : List Nat :=
  (rd.dfa.states.filter fun s => s.state_type == ACCEPT_STATE_ID).map
    fun s => s.state_id

/-- The fresh extra accept identity allocated when there is no end anchor:
one more than the largest existing state identity (noir.rs lines 149-156).
The Rust takes `max_by_key(state_id).unwrap()`; the DFA is non-empty whenever
this is reached (an accept state exists), where `foldl max 0` agrees with it. -/
def extraAcceptId (rd : RegexAndDFA) : Nat :=
  (rd.dfa.states.map fun s => s.state_id).foldl max 0 + 1

/-- The final `accept_state_ids` vector: the original ids, plus the extra
accept id when there is no end anchor (noir.rs lines 35-48 and 157). -/
def acceptStateIds (rd : RegexAndDFA) : List Nat :=
  if rd.has_end_anchor then originalAcceptIds rd
  else originalAcceptIds rd ++ [extraAcceptId rd]

/-- The defunctionalised guards of the generated `next_state` if/else-if
chain:
* `stateRange curr lo hi next` — `(s == curr) & (input >= lo) & (input <= hi)`
  (rendered as `(s == curr) & (input == lo)` when `lo = hi`), from a `Row`;
* `stateAny curr next` — `(s == curr)`, the two extra accept rules of
  noir.rs lines 158-168;
* `byteRange lo hi next` — `(input >= lo) & (input <= hi)` with no state
  guard, the restart fallback of noir.rs lines 173-181. -/
inductive Rule where
  | stateRange (curr_state char_start char_end next_state : Nat)
  | stateAny (curr_state next_state : Nat)
  | byteRange (char_start char_end next_state : Nat)
deriving Repr, DecidableEq

/-- Whether a rule's guard is satisfied by the pair (state, input byte). -/
def ruleMatches : Rule → Nat → Nat → Bool
  | .stateRange curr lo hi _, s, input =>
      s == curr && decide (lo ≤ input) && decide (input ≤ hi)
  | .stateAny curr _, s, _ => s == curr
  | .byteRange lo hi _, _, input => decide (lo ≤ input) && decide (input ≤ hi)

/-- The `next` value assigned by a rule's body. -/
def ruleNext : Rule → Nat
  | .stateRange _ _ _ next => next
  | .stateAny _ next => next
  | .byteRange _ _ next => next

/-- Whether the rule's body contains the `reset = false;` assignment: the
state-guarded rules do (noir.rs lines 111-115, 122-168), the restart-fallback
rules do not (noir.rs lines 173-181). -/
def ruleClearsReset : Rule → Bool
  | .stateRange _ _ _ _ => true
  | .stateAny _ _ => true
  | .byteRange _ _ _ => false

/-- The rule rendered for one `Row` (noir.rs lines 118-141). -/
def rowRule (r : Row) : Rule :=
  Rule.stateRange r.curr_state r.char_start r.char_end r.next_state

/-- The two extra accept rules rendered when there is no end anchor
(noir.rs lines 146-169): route the original accept state to the extra one on
any byte, and keep the extra one self-looping on any byte.
`(accept_state_ids.get(0).unwrap())` is modelled with `headD 0`; generation
only reaches this point with exactly one accept state. -/
def acceptExtraRules (rd : RegexAndDFA) : List Rule :=
  if rd.has_end_anchor then []
  else
    [Rule.stateAny ((originalAcceptIds rd).headD 0) (extraAcceptId rd),
     Rule.stateAny (extraAcceptId rd) (extraAcceptId rd)]

/-- The restart-fallback rules (noir.rs lines 173-181): byte-only rules from
`first_transitions`, appended last. -/
def fallbackRules (rd : RegexAndDFA) : List Rule :=
  (firstTransitions rd).map fun t => Rule.byteRange t.1 t.2.1 t.2.2

/-- The complete ordered rule chain of the generated `next_state` function:
row rules in DFA order, then the optional two extra accept rules, then the
restart fallback (noir.rs lines 117-181). -/
def buildRules (rd : RegexAndDFA) : List Rule :=
  (transitionRows rd).map rowRule ++ acceptExtraRules rd ++ fallbackRules rd

/-- The generated `next_state` function in capture mode (noir.rs lines
186-202): `next` starts at 0 and `reset` starts `true`; the chain is
evaluated top to bottom and the first matching rule assigns `next` (and
clears `reset` when its body carries `reset = false;`). -/
def evalChain : List Rule → Nat → Nat → Nat × Bool
  | [], _, _ => (0, true)
  | r :: rs, s, input =>
      if ruleMatches r s input then (ruleNext r, !ruleClearsReset r)
      else evalChain rs s input

/-- The generated `next_state` function without capture mode (noir.rs lines
204-213): same chain, but only `next` is computed. -/
def evalNext : List Rule → Nat → Nat → Nat
  | [], _, _ => 0
  | r :: rs, s, input =>
      if ruleMatches r s input then ruleNext r else evalNext rs s input

example : compressRanges [97, 98, 99, 105] = [(97, 99), (105, 105)] := by decide

example : evalChain [Rule.stateRange 0 97 99 2, Rule.byteRange 97 99 2] 5 98
    = (2, true) := by decide

/-- The per-iteration capture bookkeeping of the generated `regex_match`
(noir.rs lines 290-331): the committed collection `substrings`, the
open-capture flag `consecutive_substr` (0 = closed, 1 = open) and the buffer
`current_substring` under construction.  Byte values pushed as `Field` are
modelled as `Nat`. -/
structure CapState where
  substrings : List (List Nat)
  consecutive_substr : Nat
  current_substring : List Nat
deriving Repr, DecidableEq

/-- Initial capture bookkeeping (noir.rs lines 292, 300-301). -/
def initCapState : CapState := { substrings := [], consecutive_substr := 0, current_substring := [] }

/-- The guard generated for one capture group (noir.rs lines 239-244): the
disjunction of `(s == fromState) & (s_next == toState)` over the group's
transition-pair set. -/
def groupCond (range_set : List (Nat × Nat)) (s s_next : Nat) : Bool :=
  range_set.any fun p => s == p.1 && s_next == p.2

/-- The generated per-byte condition chain filling up substrings (noir.rs
lines 233-284): an if/else-if per capture group (all with the same body:
push the byte, mark the capture open), then the trailing two `else if`
branches — restart-to-zero discards the open buffer, otherwise an open
buffer is committed.  First-match-wins over the identical group bodies is
rendered with `find?`. -/
def fillSubstrings (ranges : List (List (Nat × Nat))) (s s_next temp : Nat)
    (st : CapState) : CapState :=
  match ranges.find? (fun g => groupCond g s s_next) with
  | some _ =>
      if st.consecutive_substr == 0 then
        { st with current_substring := st.current_substring ++ [temp],
                  consecutive_substr := 1 }
      else if st.consecutive_substr == 1 then
        { st with current_substring := st.current_substring ++ [temp] }
      else st
  | none =>
      if st.consecutive_substr == 1 && s_next == 0 then
        { st with current_substring := [], consecutive_substr := 0 }
      else if st.consecutive_substr == 1 then
        { substrings := st.substrings ++ [st.current_substring],
          consecutive_substr := 0, current_substring := [] }
      else st

/-- The reset-driven discard that precedes the condition chain (noir.rs
lines 312-317): if the step reset and a capture is open, clear the buffer
and mark it closed. -/
def resetDiscard (reset : Bool) (st : CapState) : CapState :=
  if reset && st.consecutive_substr == 1 then
    { st with current_substring := [], consecutive_substr := 0 }
  else st

/-- One iteration of the capture-mode `regex_match` loop (noir.rs lines
303-322): evaluate the chain at the incoming state and byte; when the step
reset, the previous state is considered to be 0; apply the reset-driven
discard, then the condition chain; the loop continues from `s_next`. -/
def captureStep (rules : List Rule) (ranges : List (List (Nat × Nat)))
    (acc : Nat × CapState) (input_i : Nat) : Nat × CapState :=
  let stateInfo := evalChain rules acc.1 input_i
  let s := if stateInfo.2 then 0 else acc.1
  let st := resetDiscard stateInfo.2 acc.2
  (stateInfo.1, fillSubstrings ranges s stateInfo.1 input_i st)

/-- The generated capture-mode `regex_match` entry point (noir.rs lines
288-332): state starts at 0, the sentinel byte 255 is fed once (its reset
flag unused), every input byte is processed by `captureStep`, the final
state is tested against the accepting identities, and a still-open capture
is committed after the loop.  Returns (assertion holds, committed output
collection). -/
def regexMatchSubstrs (rules : List Rule) (ranges : List (List (Nat × Nat)))
    (accept_ids : List Nat) (input : List Nat) : Bool × List (List Nat) :=
  let s0 := (evalChain rules 0 255).1
  let res := input.foldl (captureStep rules ranges) (s0, initCapState)
  let ok := accept_ids.any fun id => res.1 == id
  let out :=
    if res.2.consecutive_substr == 1 then res.2.substrings ++ [res.2.current_substring]
    else res.2.substrings
  (ok, out)

/-- The generated plain `regex_match` entry point (noir.rs lines 336-351):
state starts at 0, the sentinel byte 255 is fed once, every input byte steps
the evaluator, and the final state is tested against the accepting
identities. -/
def regexMatchPlain (rules : List Rule) (accept_ids : List Nat)
    (input : List Nat) : Bool :=
  let s0 := evalNext rules 0 255
  let sF := input.foldl (fun s b => evalNext rules s b) s0
  accept_ids.any fun id => sF == id

/-- The sequence of states visited by the plain evaluator: the state after
the sentinel feed, then the state after each input byte. -/
def stateTracePlain (rules : List Rule) (input : List Nat) : List Nat :=
  List.scanl (fun s b => evalNext rules s b) (evalNext rules 0 255) input

/-- The sequence of states visited by the capture-mode evaluator. -/
def stateTraceSubstrs (rules : List Rule) (ranges : List (List (Nat × Nat)))
    (input : List Nat) : List Nat :=
  (List.scanl (captureStep rules ranges) ((evalChain rules 0 255).1, initCapState)
    input).map Prod.fst

/-- Transcription of `indent` (noir.rs lines 366-378): each non-whitespace
line gains `level` times four spaces. -/
def indent (s : String) (level : Nat) : String :=
  let indent_str := String.join (List.replicate level "    ")
  String.intercalate "\n" ((s.splitOn "\n").map fun l =>
    if l.trim.isEmpty then l else indent_str ++ l)

/-- The text of the guarded rule rendered for one `Row` (noir.rs lines
118-141): a single-byte interval renders an equality guard, a wider interval
a closed-range guard; `first` selects `if` versus ` else if`. -/
def rowText (first : Bool) (resetFlip : String) (r : Row) : String :=
  let lead := if first then "if" else " else if"
  if r.char_start == r.char_end then
    lead ++ " (s == " ++ toString r.curr_state ++ ") & (input == "
      ++ toString r.char_start ++ ") \x7b\n   next = " ++ toString r.next_state
      ++ ";" ++ resetFlip ++ "\n\x7d"
  else
    lead ++ " (s == " ++ toString r.curr_state ++ ") & (input >= "
      ++ toString r.char_start ++ ") & (input <= " ++ toString r.char_end
      ++ ") \x7b\n   next = " ++ toString r.next_state ++ ";" ++ resetFlip
      ++ "\n\x7d"

/-- The fold over `rows` building `next_state_fn_body`, carrying the
`first_condition` flag (noir.rs lines 107, 118-141). -/
def rowsText (rows : List Row) (resetFlip : String) : String × Bool :=
  rows.foldl (fun acc r => (acc.1 ++ rowText acc.2 resetFlip r, false)) ("", true)

/-- The text of the two extra accept rules (noir.rs lines 146-169), empty
when the regex has an end anchor. -/
def acceptExtrasText (rd : RegexAndDFA) (first : Bool) (resetFlip : String) : String :=
  if rd.has_end_anchor then ""
  else
    let a := toString ((originalAcceptIds rd).headD 0)
    let e := toString (extraAcceptId rd)
    let lead := if first then "if" else " else if"
    lead ++ " (s == " ++ a ++ ") \x7b\n   next = " ++ e ++ ";" ++ resetFlip
      ++ "\n\x7d" ++ " else if (s == " ++ e ++ ") \x7b\n   next = " ++ e ++ ";"
      ++ resetFlip ++ "\n\x7d"

/-- The text of the restart-fallback rules (noir.rs lines 173-181); their
bodies carry no `reset = false;`. -/
def fallbackText (rd : RegexAndDFA) : String :=
  String.join ((firstTransitions rd).map fun t =>
    if t.1 == t.2.1 then
      " else if (input == " ++ toString t.1 ++ ") \x7b\n   next = "
        ++ toString t.2.2 ++ ";\n\x7d"
    else
      " else if ((input >= " ++ toString t.1 ++ ") & (input <= "
        ++ toString t.2.1 ++ ")) \x7b\n   next = " ++ toString t.2.2 ++ ";\n\x7d")

/-- The complete, indented `next_state_fn_body` (noir.rs lines 51-183). -/
def nextStateFnBody (rd : RegexAndDFA) (gen_substrs : Bool) : String :=
  let resetFlip := if gen_substrs then "\n   reset = false;" else ""
  let rt := rowsText (transitionRows rd) resetFlip
  indent (rt.1 ++ acceptExtrasText rd rt.2 resetFlip ++ fallbackText rd) 1

/-- The full text of the generated `next_state` function (noir.rs lines
184-214): in capture mode it returns a `StateInfo` with the reset flag. -/
def nextStateFnText (rd : RegexAndDFA) (gen_substrs : Bool) : String :=
  let body := nextStateFnBody rd gen_substrs
  if gen_substrs then
    "\nstruct StateInfo \x7b\n  next_state: Field,\n  reset: bool\n      \x7d\n\nfn next_state(s: Field, input: u8) -> StateInfo \x7b\n    let mut next = 0;\n    // Whether the move to the next state can be seen as a reset\n    // and what has been observed until now turned out to be invalid\n    let mut reset = true;\n"
      ++ body ++ "\n\n    StateInfo\x7b next_state: next, reset \x7d\n\x7d\n  "
  else
    "\nfn next_state(s: Field, input: u8) -> Field \x7b\n    let mut next = 0;\n"
      ++ body ++ "\n\n    next\n\x7d\n  "

/-- `final_states_condition_body` (noir.rs lines 219-223): the disjunction
of `(s == id)` over the accepting identities. -/
def finalStatesConditionBody (rd : RegexAndDFA) : String :=
  String.intercalate " | " ((acceptStateIds rd).map fun id =>
    "(s == " ++ toString id ++ ")")

/-- The generated block for one capture group (noir.rs lines 236-264). -/
def groupBlockText (first : Bool) (range_set : List (Nat × Nat)) : String :=
  let range_conditions := String.intercalate " | " (range_set.map fun p =>
    "((s == " ++ toString p.1 ++ ") & (s_next == " ++ toString p.2 ++ "))")
  let start_part := if first then "if" else "else if"
  start_part ++ " (" ++ range_conditions
    ++ ") \x7b\n    if (consecutive_substr == 0) \x7b\n      current_substring.push(temp);\n      consecutive_substr = 1;\n    \x7d else if (consecutive_substr == 1) \x7b\n      current_substring.push(temp);\n    \x7d\n\x7d"

/-- `conditions` (noir.rs lines 231-267): the group blocks joined by
newlines, the first introduced by `if`, later ones by `else if`. -/
def conditionsText (ranges : List (List (Nat × Nat))) : String :=
  String.intercalate "\n" (ranges.enum.map fun gi => groupBlockText (gi.1 == 0) gi.2)

/-- `final_conditions` (noir.rs lines 273-284): the group blocks followed by
the restart-to-zero discard branch and the commit branch. -/
def finalConditionsText (ranges : List (List (Nat × Nat))) : String :=
  conditionsText ranges
    ++ " else if ((consecutive_substr == 1) & (s_next == 0)) \x7b\n    current_substring = BoundedVec::new();\n    consecutive_substr = 0;\n\x7d else if (consecutive_substr == 1) \x7b\n    // The substring is done so \"save\" it\n    substrings.push(current_substring);\n    // reset the substring holder for next use\n    current_substring = BoundedVec::new();\n    consecutive_substr = 0;\n\x7d"

/-- The generated `regex_match` body in capture mode (noir.rs lines 230-334). -/
def fnBodySubstrs (rd : RegexAndDFA) : String :=
  let conditions := indent (finalConditionsText rd.substrings.substring_ranges) 2
  "\npub fn regex_match<let N: u32>(input: [u8; N]) -> Vec<BoundedVec<Field, N>> \x7b\n    // regex: "
    ++ rd.regex_pattern
    ++ "\n    let mut substrings: Vec<BoundedVec<Field, N>> = Vec::new();\n\n    // \"Previous\" state\n    let mut s: Field = 0;\n    // \"Next\"/upcoming state\n    let mut s_next: Field = 0;\n    let stateInfo = next_state(s, 255);\n    s = stateInfo.next_state;\n    let mut consecutive_substr = 0;\n    let mut current_substring = BoundedVec::new();\n\n    for i in 0..input.len() \x7b\n        let stateInfo =  next_state(s, input[i]);\n        if stateInfo.reset \x7b\n            // If there was a reset, we consider the previous state to be 0.\n            s = 0;\n        \x7d\n        s_next = stateInfo.next_state;\n        let temp = input[i] as Field;\n\n        // If a substring was in the making, but the state was reset\n        // we disregard previous progress because apparently it is invalid\n        if (stateInfo.reset & (consecutive_substr == 1)) \x7b\n            current_substring = BoundedVec::new();\n            consecutive_substr = 0;\n        \x7d\n\n        // Fill up substrings\n"
    ++ conditions
    ++ "\n        s = s_next;\n    \x7d\n\n    assert("
    ++ finalStatesConditionBody rd
    ++ ", f\"no match: \x7bs\x7d\");\n\n    // Add pending substring that hasn\x27t been added\n    if consecutive_substr == 1 \x7b\n      substrings.push(current_substring);\n    \x7d\n    substrings\n\x7d\n  "

/-- The generated `regex_match` body without capture mode (noir.rs lines
336-351). -/
def fnBodyPlain (rd : RegexAndDFA) : String :=
  "\npub fn regex_match<let N: u32>(input: [u8; N]) \x7b\n    // regex: "
    ++ rd.regex_pattern
    ++ "\n    let mut s = 0;\n    s = next_state(s, 255);\n\n    for i in 0..input.len() \x7b\n        s = next_state(s, input[i]);\n    \x7d\n\n    assert("
    ++ finalStatesConditionBody rd
    ++ ", f\"no match: \x7bs\x7d\");\n\x7d\n  "

/-- The full generated artifact text (noir.rs lines 354-361). -/
def noirText (rd : RegexAndDFA) (gen_substrs : Bool) : String :=
  let fn_body := if gen_substrs then fnBodySubstrs rd else fnBodyPlain rd
  ("\n      " ++ fn_body ++ "\n      " ++ nextStateFnText rd gen_substrs ++ "\n  ").trim

/-- `to_noir_fn` (noir.rs lines 31-362).  The Rust `assert!` that the DFA
carries exactly one accept-typed state is a fatal generation-time abort,
modelled as `none`; otherwise the artifact text is produced. -/
def to_noir_fn (rd : RegexAndDFA) (gen_substrs : Bool) : Option String :=
  if (originalAcceptIds rd).length = 1 then some (noirText rd gen_substrs)
  else none

/-- Example input: DFA of the spec scenario for `a+b$` (states 0, 1, 2 with 2
accepting), end-anchored, with one capture group spanning the `a+` run. -/
def exampleAnchored : RegexAndDFA :=
  { regex_pattern := "a+b$",
    dfa := { states := [
      { state_id := 0, state_type := "normal", transitions := [(1, [97])] },
      { state_id := 1, state_type := "normal", transitions := [(1, [97]), (2, [98])] },
      { state_id := 2, state_type := "accept", transitions := [] } ] },
    has_end_anchor := true,
    substrings := { substring_ranges := [[(0, 1), (1, 1)]] } }

/-- Example input: the same DFA without the end anchor and with no capture
groups. -/
def exampleUnanchored : RegexAndDFA :=
  { regex_pattern := "a+b",
    dfa := { states := [
      { state_id := 0, state_type := "normal", transitions := [(1, [97])] },
      { state_id := 1, state_type := "normal", transitions := [(1, [97]), (2, [98])] },
      { state_id := 2, state_type := "accept", transitions := [] } ] },
    has_end_anchor := false,
    substrings := { substring_ranges := [] } }

/-- Example input: state 0 carries a transition on the byte set {254, 255},
so range compression yields the single row (0, 254, 255, 1). -/
def exampleSentinelRange : RegexAndDFA :=
  { regex_pattern := "[\xfe\xff]",
    dfa := { states := [
      { state_id := 0, state_type := "normal", transitions := [(1, [254, 255])] },
      { state_id := 1, state_type := "accept", transitions := [] } ] },
    has_end_anchor := true,
    substrings := { substring_ranges := [] } }

/-- Example input: the capture group marks the edge 2 -> 3; state 2 has no
transition on byte 98 while state 0 does, so reading 98 in state 2 restarts
via the fallback and still lands on state 3. -/
def exampleRestart : RegexAndDFA :=
  { regex_pattern := "(ac|b)",
    dfa := { states := [
      { state_id := 0, state_type := "normal", transitions := [(2, [97]), (3, [98])] },
      { state_id := 2, state_type := "normal", transitions := [(3, [99])] },
      { state_id := 3, state_type := "accept", transitions := [] } ] },
    has_end_anchor := true,
    substrings := { substring_ranges := [[(2, 3)]] } }

/-- Helper: the plain evaluator computes the first component of the
capture-mode evaluator (the generated chains assign `next` identically; the
capture-mode text only adds the `reset` bookkeeping). -/
theorem evalNext_eq_evalChain_fst (rules : List Rule) (s b : Nat) :
    evalNext rules s b = (evalChain rules s b).1 := by
  induction rules with
  | nil => rfl
  | cons r rs ih =>
      by_cases h : ruleMatches r s b = true
      · simp [evalNext, evalChain, h]
      · simp only [Bool.not_eq_true] at h
        simp [evalNext, evalChain, h, ih]

/-- Helper: when no rule of the chain matches, the defaults survive:
`next = 0`, `reset = true`. -/
theorem evalChain_no_match (rules : List Rule) (s b : Nat)
    (h : ∀ r ∈ rules, ruleMatches r s b = false) :
    evalChain rules s b = (0, true) := by
  induction rules with
  | nil => rfl
  | cons r rs ih =>
      have hr : ruleMatches r s b = false := h r (List.mem_cons_self r rs)
      simp only [evalChain, hr, Bool.false_eq_true, if_false]
      exact ih fun q hq => h q (List.mem_cons_of_mem r hq)

/-- Helper: a prefix of non-matching rules is skipped. -/
theorem evalChain_append_of_no_match (xs ys : List Rule) (s b : Nat)
    (h : ∀ r ∈ xs, ruleMatches r s b = false) :
    evalChain (xs ++ ys) s b = evalChain ys s b := by
  induction xs with
  | nil => rfl
  | cons r rs ih =>
      have hr : ruleMatches r s b = false := h r (List.mem_cons_self r rs)
      simp only [List.cons_append, evalChain, hr, Bool.false_eq_true, if_false]
      exact ih fun q hq => h q (List.mem_cons_of_mem r hq)

/-- Helper: a chain whose rules all leave `reset` alone reports `reset =
true` whatever happens. -/
theorem evalChain_snd_of_no_clear (rules : List Rule) (s b : Nat)
    (h : ∀ r ∈ rules, ruleClearsReset r = false) :
    (evalChain rules s b).2 = true := by
  induction rules with
  | nil => rfl
  | cons r rs ih =>
      by_cases hm : ruleMatches r s b = true
      · have hr : ruleClearsReset r = false := h r (List.mem_cons_self r rs)
        simp [evalChain, hm, hr]
      · simp only [Bool.not_eq_true] at hm
        simp only [evalChain, hm, Bool.false_eq_true, if_false]
        exact ih fun q hq => h q (List.mem_cons_of_mem r hq)

/-- Helper: in a chain made of reset-clearing rules followed by
non-clearing rules, the reported `reset` flag is true exactly when no
clearing rule matches. -/
theorem evalChain_snd_split (cs ns : List Rule) (s b : Nat)
    (hc : ∀ r ∈ cs, ruleClearsReset r = true)
    (hn : ∀ r ∈ ns, ruleClearsReset r = false) :
    (evalChain (cs ++ ns) s b).2 = true ↔ ∀ r ∈ cs, ruleMatches r s b = false := by
  induction cs with
  | nil =>
      simp only [List.nil_append, List.not_mem_nil]
      constructor
      · intro _ r hr; exact absurd hr (by simp)
      · intro _; exact evalChain_snd_of_no_clear ns s b hn
  | cons r rs ih =>
      by_cases hm : ruleMatches r s b = true
      · have hr : ruleClearsReset r = true := hc r (List.mem_cons_self r rs)
        simp only [List.cons_append, evalChain, hm, if_true, hr]
        constructor
        · intro hfalse; exact absurd hfalse (by simp)
        · intro hall
          exact absurd (hall r (List.mem_cons_self r rs)) (by simp [hm])
      · simp only [Bool.not_eq_true] at hm
        simp only [List.cons_append, evalChain, hm, Bool.false_eq_true, if_false]
        have heq : rs.append ns = rs ++ ns := rfl
        rw [heq, ih (fun q hq => hc q (List.mem_cons_of_mem r hq))]
        constructor
        · intro hall q hq
          rcases List.mem_cons.mp hq with h1 | h1
          · exact h1 ▸ hm
          · exact hall q h1
        · intro hall q hq; exact hall q (List.mem_cons_of_mem r hq)

/-- Helper: the seed of `foldl max` is a lower bound of the result. -/
theorem foldl_max_init_le (l : List Nat) (a : Nat) : a ≤ l.foldl max a := by
  induction l generalizing a with
  | nil => exact Nat.le_refl a
  | cons x xs ih => exact Nat.le_trans (Nat.le_max_left a x) (ih (max a x))

/-- Helper: every member of the list is bounded by `foldl max`. -/
theorem foldl_max_mem_le (l : List Nat) (a : Nat) :
    ∀ x ∈ l, x ≤ l.foldl max a := by
  induction l generalizing a with
  | nil => intro x hx; exact absurd hx (List.not_mem_nil x)
  | cons y ys ih =>
      intro x hx
      rcases List.mem_cons.mp hx with h | h
      · subst h
        exact Nat.le_trans (Nat.le_max_right a x) (foldl_max_init_le ys (max a x))
      · exact ih (max a y) x h

/-- C6: Generation aborts fatally, producing no artifact, if and only if the
input DFA does not contain exactly one accept-typed state; with exactly one
accept state it completes and produces the artifact text.  The Rust
`assert!` of noir.rs lines 43-47 is the only generation-time abort and is
modelled by the `none` branch of `to_noir_fn`. -/
theorem C6_single_accept_state_precondition :
    ∀ (rd : RegexAndDFA) (g : Bool),
      (to_noir_fn rd g = none ↔
        ¬ (rd.dfa.states.filter fun s => s.state_type == ACCEPT_STATE_ID).length = 1)
      ∧ ((rd.dfa.states.filter fun s => s.state_type == ACCEPT_STATE_ID).length = 1 →
        to_noir_fn rd g = some (noirText rd g)) := by
  intro rd g
  have hlen : (originalAcceptIds rd).length
      = (rd.dfa.states.filter fun s => s.state_type == ACCEPT_STATE_ID).length :=
    List.length_map _ _
  by_cases h : (rd.dfa.states.filter fun s => s.state_type == ACCEPT_STATE_ID).length = 1
  · have h1 : (originalAcceptIds rd).length = 1 := by rw [hlen]; exact h
    constructor
    · simp [to_noir_fn, h1, h]
    · intro _; simp [to_noir_fn, h1]
  · have h1 : ¬ (originalAcceptIds rd).length = 1 := by rw [hlen]; exact h
    constructor
    · simp [to_noir_fn, h1, h]
    · intro hc; exact absurd hc h

/-- C6 witness: the example DFA has exactly one accept state and generation
completes. -/
theorem C6_witness :
    (exampleAnchored.dfa.states.filter fun s => s.state_type == ACCEPT_STATE_ID).length = 1
    ∧ to_noir_fn exampleAnchored true = some (noirText exampleAnchored true) :=
  ⟨by decide, (C6_single_accept_state_precondition exampleAnchored true).2 (by decide)⟩

/-- C9: Generation is deterministic: identical (CompilationUnit, captureFlag)
inputs produce identical output text.  `to_noir_fn` is a pure function of
its two arguments — the embedding has no other state to depend on, mirroring
the Rust, whose only inputs are the borrowed `RegexAndDFA` and the flag and
which touches no global mutable state and iterates only ordered collections
(`Vec`, `BTreeMap`, `BTreeSet`). -/
theorem C9_generation_deterministic :
    ∀ (rd1 rd2 : RegexAndDFA) (g1 g2 : Bool), rd1 = rd2 → g1 = g2 →
      to_noir_fn rd1 g1 = to_noir_fn rd2 g2 := by
  intro rd1 rd2 g1 g2 h1 h2
  rw [h1, h2]

/-- C9 witness: two generations on the same concrete input coincide. -/
theorem C9_witness :
    to_noir_fn exampleAnchored true = to_noir_fn exampleAnchored true :=
  C9_generation_deterministic exampleAnchored exampleAnchored true true rfl rfl

/-- C5: Accept normalization.  With an end anchor the accepting identity set
stays the singleton of the original accept state and no rules are added;
without one, a fresh identity `max(existing ids) + 1` is appended to the
accepting set and exactly two rules are inserted between the row rules and
the restart fallback: `A -> A'` on any byte and `A' -> A'` on any byte. -/
theorem C5_accept_normalization :
    ∀ (rd : RegexAndDFA) (A : Nat), originalAcceptIds rd = [A] →
      (rd.has_end_anchor = true →
        acceptStateIds rd = [A] ∧ acceptExtraRules rd = [] ∧
        buildRules rd = (transitionRows rd).map rowRule ++ fallbackRules rd)
      ∧ (rd.has_end_anchor = false →
        acceptStateIds rd = [A, extraAcceptId rd]
        ∧ extraAcceptId rd = (rd.dfa.states.map fun s => s.state_id).foldl max 0 + 1
        ∧ (∀ st ∈ rd.dfa.states, st.state_id ≠ extraAcceptId rd)
        ∧ acceptExtraRules rd =
            [Rule.stateAny A (extraAcceptId rd),
             Rule.stateAny (extraAcceptId rd) (extraAcceptId rd)]
        ∧ buildRules rd = (transitionRows rd).map rowRule
            ++ [Rule.stateAny A (extraAcceptId rd),
                Rule.stateAny (extraAcceptId rd) (extraAcceptId rd)]
            ++ fallbackRules rd
        ∧ (∀ b, ruleMatches (Rule.stateAny A (extraAcceptId rd)) A b = true)
        ∧ (∀ b, ruleMatches (Rule.stateAny (extraAcceptId rd) (extraAcceptId rd))
            (extraAcceptId rd) b = true)) := by
  intro rd A hA
  constructor
  · intro hanch
    refine ⟨?_, ?_, ?_⟩
    · rw [acceptStateIds, hanch, if_pos rfl, hA]
    · rw [acceptExtraRules, hanch, if_pos rfl]
    · rw [buildRules, acceptExtraRules, hanch, if_pos rfl, List.append_nil]
  · intro hanch
    have hextra : acceptExtraRules rd =
        [Rule.stateAny A (extraAcceptId rd),
         Rule.stateAny (extraAcceptId rd) (extraAcceptId rd)] := by
      rw [acceptExtraRules, hanch, if_neg (by simp), hA]
      rfl
    refine ⟨?_, rfl, ?_, hextra, ?_, ?_, ?_⟩
    · rw [acceptStateIds, hanch, if_neg (by simp), hA]
      rfl
    · intro st hst hid
      have hmem : st.state_id ∈ rd.dfa.states.map fun s => s.state_id :=
        List.mem_map_of_mem _ hst
      have hle := foldl_max_mem_le (rd.dfa.states.map fun s => s.state_id) 0
        st.state_id hmem
      rw [extraAcceptId] at hid
      omega
    · rw [buildRules, hextra]
    · intro b; simp [ruleMatches]
    · intro b; simp [ruleMatches]

/-- C5 witness: on the unanchored example (accept state 2, max id 2) the
accepting set becomes [2, 3] and the two synthesized rules fire on any
byte. -/
theorem C5_witness :
    acceptStateIds exampleUnanchored = [2, 3]
    ∧ ruleMatches (Rule.stateAny 2 (extraAcceptId exampleUnanchored)) 2 120 = true := by
  have h := (C5_accept_normalization exampleUnanchored 2 (by decide)).2 (by decide)
  exact ⟨h.1, h.2.2.2.2.2.1 120⟩

/-- Helper: every state-keyed rule (row rules and the extra accept rules)
carries the `reset = false;` assignment. -/
theorem stateKeyed_clears_reset (rd : RegexAndDFA) :
    ∀ q ∈ (transitionRows rd).map rowRule ++ acceptExtraRules rd,
      ruleClearsReset q = true := by
  intro q hq
  rcases List.mem_append.mp hq with h | h
  · obtain ⟨row, _, hrow⟩ := List.mem_map.mp h
    rw [← hrow]; rfl
  · rw [acceptExtraRules] at h
    by_cases hanch : rd.has_end_anchor
    · rw [if_pos hanch] at h
      exact absurd h (List.not_mem_nil q)
    · rw [if_neg hanch] at h
      rcases List.mem_cons.mp h with h1 | h1
      · rw [h1]; rfl
      · rcases List.mem_cons.mp h1 with h2 | h2
        · rw [h2]; rfl
        · exact absurd h2 (List.not_mem_nil q)

/-- Helper: no restart-fallback rule touches `reset`. -/
theorem fallback_no_clear_reset (rd : RegexAndDFA) :
    ∀ q ∈ fallbackRules rd, ruleClearsReset q = false := by
  intro q hq
  obtain ⟨t, _, ht⟩ := List.mem_map.mp hq
  rw [← ht]; rfl

/-- C3: The generated `next_state` is a total function of (state, byte)
rendered as an ordered chain of guarded rules with first-match-wins
(conjuncts 1-3 are the chain's evaluation equations; totality is by
construction, `evalChain` being a Lean function); every pair matching no
rule defaults to next state 0 (conjunct 4); and in capture mode the reset
flag is true exactly when no state-keyed rule matches — the step is an
invalid continuation — (conjunct 5), in which case the capture loop forces
the previous state back to the initial state 0 (conjunct 6). -/
theorem C3_guarded_chain_total_with_reset :
    ∀ (rules rs : List Rule) (rd : RegexAndDFA) (r : Rule)
      (ranges : List (List (Nat × Nat))) (st : CapState) (s b : Nat),
      evalChain [] s b = (0, true)
      ∧ (ruleMatches r s b = true →
          evalChain (r :: rs) s b = (ruleNext r, !ruleClearsReset r))
      ∧ (ruleMatches r s b = false → evalChain (r :: rs) s b = evalChain rs s b)
      ∧ ((∀ q ∈ rules, ruleMatches q s b = false) → evalChain rules s b = (0, true))
      ∧ ((evalChain (buildRules rd) s b).2 = true ↔
          ∀ q ∈ (transitionRows rd).map rowRule ++ acceptExtraRules rd,
            ruleMatches q s b = false)
      ∧ ((evalChain rules s b).2 = true →
          captureStep rules ranges (s, st) b
            = ((evalChain rules s b).1,
               fillSubstrings ranges 0 (evalChain rules s b).1 b
                 (resetDiscard true st))) := by
  intro rules rs rd r ranges st s b
  refine ⟨rfl, ?_, ?_, ?_, ?_, ?_⟩
  · intro h; simp [evalChain, h]
  · intro h; simp [evalChain, h]
  · exact evalChain_no_match rules s b
  · have hsplit := evalChain_snd_split
      ((transitionRows rd).map rowRule ++ acceptExtraRules rd) (fallbackRules rd)
      s b (stateKeyed_clears_reset rd) (fallback_no_clear_reset rd)
    rw [buildRules]
    exact hsplit
  · intro h
    simp [captureStep, h]

/-- C3 witness: state 5 with byte 120 matches no rule of the example chain,
so the evaluator defaults to state 0 with reset true. -/
theorem C3_witness :
    evalChain (buildRules exampleAnchored) 5 120 = (0, true) :=
  (C3_guarded_chain_total_with_reset (buildRules exampleAnchored) []
    exampleAnchored (Rule.stateAny 0 0) [] initCapState 5 120).2.2.2.1 (by decide)

/-- C4 counterexample: the claim "no restart-fallback rule's guard is
satisfied by byte value 255" fails.  With state 0 owning a transition on the
byte set {254, 255}, range compression emits the row (0, 254, 255, 1); its
`char_start` is 254, not 255, so the filter of noir.rs line 104 keeps it,
and the resulting byte-only fallback guard `(input >= 254) & (input <= 255)`
is satisfied by the sentinel byte 255. -/
theorem C4_counterexample :
    Rule.byteRange 254 255 1 ∈ fallbackRules exampleSentinelRange
    ∧ ruleMatches (Rule.byteRange 254 255 1) 0 255 = true := by decide

/-- C4 (amended): the restart fallback is the list of byte-only rules built
from state 0's own rows, excluding exactly the rows whose interval START is
the sentinel byte 255, appended after all state-keyed rules; every fallback
rule is state-unguarded with start byte different from 255; a fallback rule
whose interval is a single byte is never satisfied by 255 (a multi-byte
interval ending at 255 can be — see `C4_counterexample`); and both
generated entry points feed the sentinel byte 255 exactly once, as the seed
of the scanning fold. -/
theorem C4_restart_fallback_structure :
    ∀ (rd : RegexAndDFA) (rules : List Rule) (ranges : List (List (Nat × Nat)))
      (accepts input : List Nat),
      buildRules rd
        = (transitionRows rd).map rowRule ++ acceptExtraRules rd ++ fallbackRules rd
      ∧ fallbackRules rd
          = ((transitionRows rd).filter
              (fun r => r.curr_state == 0 && r.char_start != 255)).map
            (fun r => Rule.byteRange r.char_start r.char_end r.next_state)
      ∧ (∀ q ∈ fallbackRules rd,
          (∃ lo hi nx, q = Rule.byteRange lo hi nx ∧ lo ≠ 255)
          ∧ (∀ s1 s2 b, ruleMatches q s1 b = ruleMatches q s2 b))
      ∧ (∀ q ∈ fallbackRules rd, ∀ lo nx, q = Rule.byteRange lo lo nx →
          ∀ s, ruleMatches q s 255 = false)
      ∧ regexMatchPlain rules accepts input
          = (accepts.any fun id =>
              (input.foldl (fun s b => evalNext rules s b)
                (evalNext rules 0 255)) == id)
      ∧ (regexMatchSubstrs rules ranges accepts input).1
          = (accepts.any fun id =>
              (input.foldl (captureStep rules ranges)
                ((evalChain rules 0 255).1, initCapState)).1 == id) := by
  intro rd rules ranges accepts input
  have hstart : ∀ q ∈ fallbackRules rd,
      ∃ r, r ∈ (transitionRows rd).filter
          (fun r => r.curr_state == 0 && r.char_start != 255)
        ∧ q = Rule.byteRange r.char_start r.char_end r.next_state
        ∧ r.char_start ≠ 255 := by
    intro q hq
    obtain ⟨t, ht, hqt⟩ := List.mem_map.mp hq
    obtain ⟨r, hr, hrt⟩ := List.mem_map.mp ht
    have hcond := List.of_mem_filter hr
    have hne : r.char_start ≠ 255 := by
      have h2 := (Bool.and_eq_true _ _).mp hcond |>.2
      simpa using h2
    exact ⟨r, hr, by rw [← hqt, ← hrt], hne⟩
  refine ⟨rfl, ?_, ?_, ?_, rfl, rfl⟩
  · rw [fallbackRules, firstTransitions, List.map_map]
    rfl
  · intro q hq
    obtain ⟨r, _, hqr, hne⟩ := hstart q hq
    constructor
    · exact ⟨r.char_start, r.char_end, r.next_state, hqr, hne⟩
    · intro s1 s2 b
      rw [hqr]
      rfl
  · intro q hq lo nx hqlo s
    obtain ⟨r, _, hqr, hne⟩ := hstart q hq
    have hlo : lo ≠ 255 := by
      rw [hqlo] at hqr
      injection hqr with h1 _
      rw [h1]; exact hne
    rw [hqlo]
    simp only [ruleMatches, Bool.and_eq_false_iff, decide_eq_false_iff_not]
    omega

/-- C4 witness: the fallback rule of the anchored example has start byte 97,
so its guard rejects byte 255 and ignores the state argument. -/
theorem C4_witness :
    ruleMatches (Rule.byteRange 97 97 1) 0 255 = false
    ∧ ruleMatches (Rule.byteRange 97 97 1) 3 97
        = ruleMatches (Rule.byteRange 97 97 1) 8 97 :=
  ⟨(C4_restart_fallback_structure exampleAnchored [] [] [] []).2.2.2.1
      (Rule.byteRange 97 97 1) (by decide) 97 1 rfl 0,
   ((C4_restart_fallback_structure exampleAnchored [] [] [] []).2.2.1
      (Rule.byteRange 97 97 1) (by decide)).2 3 8 97⟩

/-- Helper: one capture-mode step advances the state exactly as the plain
evaluator does; the capture bookkeeping never feeds back into the state. -/
theorem captureStep_fst (rules : List Rule) (ranges : List (List (Nat × Nat)))
    (acc : Nat × CapState) (b : Nat) :
    (captureStep rules ranges acc b).1 = evalNext rules acc.1 b := by
  rw [evalNext_eq_evalChain_fst]
  rfl

/-- Helper: the scanned state sequence of the capture-mode loop equals the
plain scan. -/
theorem scanl_captureStep_fst (rules : List Rule)
    (ranges : List (List (Nat × Nat))) :
    ∀ (input : List Nat) (s : Nat) (st : CapState),
      (List.scanl (captureStep rules ranges) (s, st) input).map Prod.fst
        = List.scanl (fun s b => evalNext rules s b) s input := by
  intro input
  induction input with
  | nil => intro s st; rfl
  | cons b bs ih =>
      intro s st
      have hstep := ih (captureStep rules ranges (s, st) b).1
        (captureStep rules ranges (s, st) b).2
      rw [Prod.mk.eta] at hstep
      rw [List.scanl_cons, List.scanl_cons, List.map_append, hstep,
        captureStep_fst]
      rfl

/-- Helper: the folded final state of the capture-mode loop equals the plain
fold. -/
theorem foldl_captureStep_fst (rules : List Rule)
    (ranges : List (List (Nat × Nat))) :
    ∀ (input : List Nat) (s : Nat) (st : CapState),
      (input.foldl (captureStep rules ranges) (s, st)).1
        = input.foldl (fun s b => evalNext rules s b) s := by
  intro input
  induction input with
  | nil => intro s st; rfl
  | cons b bs ih =>
      intro s st
      rw [List.foldl_cons, List.foldl_cons]
      have hstep := ih (captureStep rules ranges (s, st) b).1
        (captureStep rules ranges (s, st) b).2
      rw [Prod.mk.eta] at hstep
      rw [hstep, captureStep_fst]

/-- C10: For every DFA and every input buffer, the capture-mode evaluator
visits the same sequence of states as the plain one, and the final
acceptance test succeeds or fails identically; capture mode only adds the
returned collection of buffers.  The rule chain is the same `buildRules rd`
in both modes — the generated texts differ only in the `reset` bookkeeping,
which never feeds back into the state (noir.rs line 321 always continues
from `s_next`). -/
theorem C10_capture_mode_preserves_states :
    ∀ (rd : RegexAndDFA) (input : List Nat),
      stateTraceSubstrs (buildRules rd) rd.substrings.substring_ranges input
        = stateTracePlain (buildRules rd) input
      ∧ (regexMatchSubstrs (buildRules rd) rd.substrings.substring_ranges
          (acceptStateIds rd) input).1
        = regexMatchPlain (buildRules rd) (acceptStateIds rd) input := by
  intro rd input
  constructor
  · rw [stateTraceSubstrs, stateTracePlain, scanl_captureStep_fst,
      evalNext_eq_evalChain_fst]
  · simp only [regexMatchSubstrs, regexMatchPlain]
    rw [foldl_captureStep_fst, evalNext_eq_evalChain_fst]

/-- Helper: with no capture groups, one capture-mode step leaves the initial
(empty, closed) capture bookkeeping unchanged. -/
theorem captureStep_empty_ranges (rules : List Rule) (s b : Nat) :
    captureStep rules [] (s, initCapState) b
      = ((evalChain rules s b).1, initCapState) := by
  simp [captureStep, resetDiscard, fillSubstrings, initCapState, List.find?]

/-- Helper: with no capture groups, the whole loop keeps the initial capture
bookkeeping. -/
theorem foldl_captureStep_empty (rules : List Rule) :
    ∀ (input : List Nat) (s : Nat),
      input.foldl (captureStep rules []) (s, initCapState)
        = (input.foldl (fun s b => evalNext rules s b) s, initCapState) := by
  intro input
  induction input with
  | nil =>
      intro s
      rw [List.foldl_nil, List.foldl_nil]
  | cons b bs ih =>
      intro s
      rw [List.foldl_cons, List.foldl_cons, captureStep_empty_ranges, ih,
        evalNext_eq_evalChain_fst]

/-- C8: Capture mode with an empty CaptureGroupSpec commits nothing: with no
group blocks in the generated chain, `consecutive_substr` never becomes 1,
so neither the in-loop commit branch nor the after-loop pending commit ever
pushes, and the output collection is empty for every input buffer. -/
theorem C8_empty_group_spec_no_output :
    ∀ (rd : RegexAndDFA), rd.substrings.substring_ranges = [] →
      ∀ (input : List Nat),
        (regexMatchSubstrs (buildRules rd) rd.substrings.substring_ranges
          (acceptStateIds rd) input).2 = [] := by
  intro rd h input
  rw [h]
  simp only [regexMatchSubstrs]
  rw [foldl_captureStep_empty]
  simp [initCapState]

/-- C8 witness: the unanchored example has an empty group spec; on the input
"abx" the committed output collection is empty. -/
theorem C8_witness :
    (regexMatchSubstrs (buildRules exampleUnanchored)
      exampleUnanchored.substrings.substring_ranges
      (acceptStateIds exampleUnanchored) [97, 98, 120]).2 = [] :=
  C8_empty_group_spec_no_output exampleUnanchored rfl [97, 98, 120]

/-- Helper: when some capture group's pair set contains the step's state
pair, the generated chain takes that group's branch (all group bodies are
identical). -/
theorem fillSubstrings_group (ranges : List (List (Nat × Nat)))
    (s1 sn temp : Nat) (st : CapState)
    (hg : ∃ g ∈ ranges, groupCond g s1 sn = true) :
    fillSubstrings ranges s1 sn temp st =
      if st.consecutive_substr == 0 then
        { st with current_substring := st.current_substring ++ [temp],
                  consecutive_substr := 1 }
      else if st.consecutive_substr == 1 then
        { st with current_substring := st.current_substring ++ [temp] }
      else st := by
  rw [fillSubstrings]
  cases hfind : ranges.find? (fun g => groupCond g s1 sn) with
  | none =>
      obtain ⟨g, hmem, hcond⟩ := hg
      have hnone := List.find?_eq_none.mp hfind g hmem
      simp [hcond] at hnone
  | some g => rfl

/-- Helper: when no capture group's pair set contains the step's state pair,
the generated chain falls through to the trailing discard/commit branches. -/
theorem fillSubstrings_no_group (ranges : List (List (Nat × Nat)))
    (s1 sn temp : Nat) (st : CapState)
    (hng : ∀ g ∈ ranges, groupCond g s1 sn = false) :
    fillSubstrings ranges s1 sn temp st =
      if st.consecutive_substr == 1 && sn == 0 then
        { st with current_substring := [], consecutive_substr := 0 }
      else if st.consecutive_substr == 1 then
        { substrings := st.substrings ++ [st.current_substring],
          consecutive_substr := 0, current_substring := [] }
      else st := by
  rw [fillSubstrings]
  cases hfind : ranges.find? (fun g => groupCond g s1 sn) with
  | none => rfl
  | some g =>
      have h1 := List.find?_some hfind
      have h2 := List.mem_of_find?_eq_some hfind
      rw [hng g h2] at h1
      exact absurd h1 (by simp)

/-- C2: On every capture-mode step whose reset flag is true while a capture
is open, the open buffer is discarded, and the discard runs before the
group-membership test: the membership chain receives the already-cleared
bookkeeping (first conjunct), so nothing is committed on such a step (the
collection is unchanged) and the discarded buffer's bytes are gone — the
buffer after the step is empty or holds just the step's own byte when a
group re-opens at state 0 (third conjunct).  The second part covers the
restart-to-zero discard: an open buffer is likewise dropped, not committed,
when the edge matches no group and the next state is 0. -/
theorem C2_reset_discard_precedence :
    (∀ (rules : List Rule) (ranges : List (List (Nat × Nat))) (s b : Nat)
        (st : CapState),
      (evalChain rules s b).2 = true → st.consecutive_substr = 1 →
        (captureStep rules ranges (s, st) b).2
            = fillSubstrings ranges 0 (evalChain rules s b).1 b
                { st with current_substring := [], consecutive_substr := 0 }
        ∧ (captureStep rules ranges (s, st) b).2.substrings = st.substrings
        ∧ ((captureStep rules ranges (s, st) b).2.current_substring = []
            ∨ (captureStep rules ranges (s, st) b).2.current_substring = [b]))
    ∧ (∀ (rules : List Rule) (ranges : List (List (Nat × Nat))) (s b : Nat)
        (st : CapState),
      (evalChain rules s b).2 = false → st.consecutive_substr = 1 →
      (evalChain rules s b).1 = 0 → (∀ g ∈ ranges, groupCond g s 0 = false) →
        (captureStep rules ranges (s, st) b).2
          = { substrings := st.substrings, consecutive_substr := 0,
              current_substring := [] }) := by
  constructor
  · intro rules ranges s b st hr hc
    have hdr : resetDiscard true st
        = { st with current_substring := [], consecutive_substr := 0 } := by
      rw [resetDiscard, hc]
      simp
    have hstep : (captureStep rules ranges (s, st) b).2
        = fillSubstrings ranges 0 (evalChain rules s b).1 b
            { st with current_substring := [], consecutive_substr := 0 } := by
      simp only [captureStep, hr, if_true, hdr]
    refine ⟨hstep, ?_, ?_⟩
    · rw [hstep]
      by_cases hg : ∃ g ∈ ranges, groupCond g 0 (evalChain rules s b).1 = true
      · rw [fillSubstrings_group _ _ _ _ _ hg]
        simp
      · push_neg at hg
        have hng : ∀ g ∈ ranges, groupCond g 0 (evalChain rules s b).1 = false := by
          intro g hgm
          have := hg g hgm
          simpa using this
        rw [fillSubstrings_no_group _ _ _ _ _ hng]
        simp
    · rw [hstep]
      by_cases hg : ∃ g ∈ ranges, groupCond g 0 (evalChain rules s b).1 = true
      · rw [fillSubstrings_group _ _ _ _ _ hg]
        simp
      · push_neg at hg
        have hng : ∀ g ∈ ranges, groupCond g 0 (evalChain rules s b).1 = false := by
          intro g hgm
          have := hg g hgm
          simpa using this
        rw [fillSubstrings_no_group _ _ _ _ _ hng]
        simp
  · intro rules ranges s b st hr hc h0 hng
    have hdr : resetDiscard false st = st := by
      rw [resetDiscard]
      simp
    have hstep : (captureStep rules ranges (s, st) b).2
        = fillSubstrings ranges s (evalChain rules s b).1 b st := by
      simp only [captureStep, hr, Bool.false_eq_true, if_false, hdr]
    rw [hstep, h0, fillSubstrings_no_group _ _ _ _ _ hng, hc]
    simp

/-- C2 witness: in the restart example, reading byte 98 in state 2 resets;
an open capture holding byte 97 is discarded and nothing is committed. -/
theorem C2_witness :
    (captureStep (buildRules exampleRestart)
      exampleRestart.substrings.substring_ranges
      (2, { substrings := [], consecutive_substr := 1,
            current_substring := [97] }) 98).2.substrings = [] :=
  (C2_reset_discard_precedence.1 (buildRules exampleRestart)
    exampleRestart.substrings.substring_ranges 2 98
    { substrings := [], consecutive_substr := 1, current_substring := [97] }
    (by decide) rfl).2.1

/-- C1 counterexample: the claim fails with `s` read as the state entering
the step.  In the restart example the capture group's pair set is {(2, 3)};
reading byte 98 in state 2 is an invalid continuation, the fallback computes
`s_next = 3` with the reset flag set, and the pair (s, s_next) = (2, 3) IS a
member of the group's pair set while no capture is open — yet the generated
step opens no capture and pushes no byte, because after the reset the
membership test runs against state 0 and (0, 3) is not in the set. -/
theorem C1_counterexample :
    exampleRestart.substrings.substring_ranges = [[(2, 3)]]
    ∧ evalChain (buildRules exampleRestart) 2 98 = (3, true)
    ∧ groupCond [(2, 3)] 2 (evalChain (buildRules exampleRestart) 2 98).1 = true
    ∧ initCapState.consecutive_substr = 0
    ∧ (captureStep (buildRules exampleRestart)
        exampleRestart.substrings.substring_ranges
        (2, initCapState) 98).2 = initCapState := by decide

/-- C1 (amended): the per-step capture behaviour holds with `s` taken as the
previous state as the evaluator accounts it, i.e. 0 when the step's reset
flag forced a restart, the unadjusted previous state otherwise (conjunct 1
is this decomposition of the step).  Then: if (s, s_next) is a member of
some group's pair set, a capture is opened and the byte pushed when none is
open (conjunct 2), or the byte is pushed to the existing buffer (conjunct
3); if the edge matches no group and a capture is open, the buffer is
committed unless `s_next = 0`, in which case it is discarded (conjuncts 4
and 5); and at input exhaustion a still-open capture is committed, not
discarded (conjunct 6). -/
theorem C1_capture_step_behaviour :
    (∀ (rules : List Rule) (ranges : List (List (Nat × Nat))) (s b : Nat)
        (st : CapState),
      captureStep rules ranges (s, st) b
        = ((evalChain rules s b).1,
           fillSubstrings ranges (if (evalChain rules s b).2 then 0 else s)
             (evalChain rules s b).1 b
             (resetDiscard (evalChain rules s b).2 st)))
    ∧ (∀ (ranges : List (List (Nat × Nat))) (s1 sn b : Nat) (st1 : CapState),
        (∃ g ∈ ranges, groupCond g s1 sn = true) → st1.consecutive_substr = 0 →
        fillSubstrings ranges s1 sn b st1
          = { st1 with current_substring := st1.current_substring ++ [b],
                       consecutive_substr := 1 })
    ∧ (∀ (ranges : List (List (Nat × Nat))) (s1 sn b : Nat) (st1 : CapState),
        (∃ g ∈ ranges, groupCond g s1 sn = true) → st1.consecutive_substr = 1 →
        fillSubstrings ranges s1 sn b st1
          = { st1 with current_substring := st1.current_substring ++ [b] })
    ∧ (∀ (ranges : List (List (Nat × Nat))) (s1 sn b : Nat) (st1 : CapState),
        (∀ g ∈ ranges, groupCond g s1 sn = false) → st1.consecutive_substr = 1 →
        sn ≠ 0 →
        fillSubstrings ranges s1 sn b st1
          = { substrings := st1.substrings ++ [st1.current_substring],
              consecutive_substr := 0, current_substring := [] })
    ∧ (∀ (ranges : List (List (Nat × Nat))) (s1 b : Nat) (st1 : CapState),
        (∀ g ∈ ranges, groupCond g s1 0 = false) → st1.consecutive_substr = 1 →
        fillSubstrings ranges s1 0 b st1
          = { st1 with current_substring := [], consecutive_substr := 0 })
    ∧ (∀ (rules : List Rule) (ranges : List (List (Nat × Nat)))
        (accepts input : List Nat),
        (input.foldl (captureStep rules ranges)
          ((evalChain rules 0 255).1, initCapState)).2.consecutive_substr = 1 →
        (regexMatchSubstrs rules ranges accepts input).2
          = (input.foldl (captureStep rules ranges)
              ((evalChain rules 0 255).1, initCapState)).2.substrings
            ++ [(input.foldl (captureStep rules ranges)
                  ((evalChain rules 0 255).1, initCapState)).2.current_substring]) := by
  refine ⟨?_, ?_, ?_, ?_, ?_, ?_⟩
  · intro rules ranges s b st
    rfl
  · intro ranges s1 sn b st1 hg hc
    rw [fillSubstrings_group _ _ _ _ _ hg, hc]
    rfl
  · intro ranges s1 sn b st1 hg hc
    rw [fillSubstrings_group _ _ _ _ _ hg, hc]
    rfl
  · intro ranges s1 sn b st1 hng hc hsn
    rw [fillSubstrings_no_group _ _ _ _ _ hng, hc]
    have hsn' : (sn == 0) = false := by
      simpa using hsn
    rw [hsn']
    simp
  · intro ranges s1 b st1 hng hc
    rw [fillSubstrings_no_group _ _ _ _ _ hng, hc]
    simp
  · intro rules ranges accepts input hopen
    simp only [regexMatchSubstrs]
    rw [hopen]
    simp

/-- C1 witness: a step whose pair (0, 1) lies in the group's set opens a
capture and pushes the byte. -/
theorem C1_witness :
    fillSubstrings [[(0, 1), (1, 1)]] 0 1 97 initCapState
      = { substrings := [], consecutive_substr := 1,
          current_substring := [97] } := by
  rw [C1_capture_step_behaviour.2.1 [[(0, 1), (1, 1)]] 0 1 97 initCapState
    ⟨[(0, 1), (1, 1)], by decide, by decide⟩ rfl]
  rfl

/-- Proof-level restructuring of the range-compression loop: processing the
remaining characters while the interval [start, prev] is open.  Consecutive
characters extend the interval; a gap closes it and opens a fresh one. -/
def rangeGo (start prev : Nat) : List Nat → List (Nat × Nat)
  | [] => [(start, prev)]
  | c :: cs =>
      if c = prev + 1 then rangeGo start c cs
      else (start, prev) :: rangeGo c c cs

/-- Helper: the compression fold with an open interval equals `rangeGo`. -/
theorem foldl_rangeStep_eq_rangeGo :
    ∀ (cs : List Nat) (rows : List (Nat × Nat)) (start prev : Nat),
      rangeFinish (cs.foldl rangeStep (rows, some (start, prev)))
        = rows ++ rangeGo start prev cs := by
  intro cs
  induction cs with
  | nil => intro rows start prev; rfl
  | cons c cs ih =>
      intro rows start prev
      rw [List.foldl_cons]
      by_cases h : c = prev + 1
      · simp only [rangeStep, if_pos h, rangeGo]
        rw [ih]
      · simp only [rangeStep, if_neg h, rangeGo]
        rw [ih]
        simp [List.append_assoc]

/-- Helper: compression of a non-empty list is `rangeGo` seeded with its
head as a singleton interval. -/
theorem compressRanges_cons (c : Nat) (cs : List Nat) :
    compressRanges (c :: cs) = rangeGo c c cs := by
  rw [compressRanges, List.foldl_cons]
  have h0 : rangeStep ([], none) c = ([], some (c, c)) := rfl
  rw [h0, foldl_rangeStep_eq_rangeGo]
  rfl

/-- Helper: every interval produced by `rangeGo` starts at or after the open
interval's start. -/
theorem rangeGo_fst_lb :
    ∀ (cs : List Nat) (start prev : Nat), List.Chain (· < ·) prev cs →
      start ≤ prev → ∀ p ∈ rangeGo start prev cs, start ≤ p.1 := by
  intro cs
  induction cs with
  | nil =>
      intro start prev _ hsp p hp
      rw [rangeGo] at hp
      rcases List.mem_singleton.mp hp with h
      rw [h]
  | cons c cs ih =>
      intro start prev hch hsp p hp
      rcases List.chain_cons.mp hch with ⟨hlt, hch'⟩
      by_cases h : c = prev + 1
      · rw [rangeGo, if_pos h] at hp
        exact ih start c hch' (by omega) p hp
      · rw [rangeGo, if_neg h] at hp
        rcases List.mem_cons.mp hp with h1 | h1
        · rw [h1]
        · have := ih c c hch' (Nat.le_refl c) p h1
          omega

/-- Helper: every interval produced by `rangeGo` is well-formed
(start at most end). -/
theorem rangeGo_bounds :
    ∀ (cs : List Nat) (start prev : Nat), List.Chain (· < ·) prev cs →
      start ≤ prev → ∀ p ∈ rangeGo start prev cs, p.1 ≤ p.2 := by
  intro cs
  induction cs with
  | nil =>
      intro start prev _ hsp p hp
      rw [rangeGo] at hp
      rcases List.mem_singleton.mp hp with h
      rw [h]
      exact hsp
  | cons c cs ih =>
      intro start prev hch hsp p hp
      rcases List.chain_cons.mp hch with ⟨hlt, hch'⟩
      by_cases h : c = prev + 1
      · rw [rangeGo, if_pos h] at hp
        exact ih start c hch' (by omega) p hp
      · rw [rangeGo, if_neg h] at hp
        rcases List.mem_cons.mp hp with h1 | h1
        · rw [h1]; exact hsp
        · exact ih c c hch' (Nat.le_refl c) p h1

/-- Helper: the intervals produced by `rangeGo` are separated by gaps of at
least one byte (so they are pairwise disjoint, in ascending order and not
mergeable). -/
theorem rangeGo_pairwise :
    ∀ (cs : List Nat) (start prev : Nat), List.Chain (· < ·) prev cs →
      start ≤ prev →
      List.Pairwise (fun p q => p.2 + 1 < q.1) (rangeGo start prev cs) := by
  intro cs
  induction cs with
  | nil =>
      intro start prev _ _
      rw [rangeGo]
      exact List.pairwise_singleton _ _
  | cons c cs ih =>
      intro start prev hch hsp
      rcases List.chain_cons.mp hch with ⟨hlt, hch'⟩
      by_cases h : c = prev + 1
      · rw [rangeGo, if_pos h]
        exact ih start c hch' (by omega)
      · rw [rangeGo, if_neg h]
        refine List.pairwise_cons.mpr ⟨?_, ih c c hch' (Nat.le_refl c)⟩
        intro q hq
        have hfst := rangeGo_fst_lb cs c c hch' (Nat.le_refl c) q hq
        omega

/-- Helper: a byte is covered by an interval of `rangeGo` exactly when it
lies in the open interval or is one of the remaining characters. -/
theorem rangeGo_cover :
    ∀ (cs : List Nat) (start prev : Nat), List.Chain (· < ·) prev cs →
      start ≤ prev → ∀ b,
      (∃ p ∈ rangeGo start prev cs, p.1 ≤ b ∧ b ≤ p.2)
        ↔ ((start ≤ b ∧ b ≤ prev) ∨ b ∈ cs) := by
  intro cs
  induction cs with
  | nil =>
      intro start prev _ _ b
      rw [rangeGo]
      simp
  | cons c cs ih =>
      intro start prev hch hsp b
      rcases List.chain_cons.mp hch with ⟨hlt, hch'⟩
      by_cases h : c = prev + 1
      · rw [rangeGo, if_pos h, ih start c hch' (by omega)]
        simp only [List.mem_cons]
        constructor
        · rintro (⟨hb1, hb2⟩ | hm)
          · by_cases hb : b ≤ prev
            · exact Or.inl ⟨hb1, hb⟩
            · exact Or.inr (Or.inl (by omega))
          · exact Or.inr (Or.inr hm)
        · rintro (⟨hb1, hb2⟩ | hb | hm)
          · exact Or.inl ⟨hb1, by omega⟩
          · exact Or.inl ⟨by omega, by omega⟩
          · exact Or.inr hm
      · rw [rangeGo, if_neg h]
        have htail := ih c c hch' (Nat.le_refl c) b
        simp only [List.mem_cons]
        constructor
        · intro hex
          obtain ⟨p, hp, hpb⟩ := hex
          rcases hp with h1 | h1
          · rw [h1] at hpb
            exact Or.inl hpb
          · rcases htail.mp ⟨p, h1, hpb⟩ with ⟨hb1, hb2⟩ | hm
            · exact Or.inr (Or.inl (by omega))
            · exact Or.inr (Or.inr hm)
        · rintro (⟨hb1, hb2⟩ | hb | hm)
          · exact ⟨(start, prev), Or.inl rfl, hb1, hb2⟩
          · obtain ⟨p, hp, hpb⟩ := htail.mpr (Or.inl ⟨by omega, by omega⟩)
            exact ⟨p, Or.inr hp, hpb⟩
          · obtain ⟨p, hp, hpb⟩ := htail.mpr (Or.inr hm)
            exact ⟨p, Or.inr hp, hpb⟩

/-- Helper: for a strictly ascending character list, the compressed
intervals are well-formed, gap-separated, and cover exactly the list's
members. -/
theorem compressRanges_sorted_spec (chars : List Nat)
    (hch : List.Chain' (· < ·) chars) :
    (∀ p ∈ compressRanges chars, p.1 ≤ p.2)
    ∧ List.Pairwise (fun p q => p.2 + 1 < q.1) (compressRanges chars)
    ∧ (∀ b, b ∈ chars ↔ ∃ p ∈ compressRanges chars, p.1 ≤ b ∧ b ≤ p.2) := by
  cases chars with
  | nil =>
      refine ⟨?_, ?_, ?_⟩ <;> simp [compressRanges, rangeFinish]
  | cons c cs =>
      have hchain : List.Chain (· < ·) c cs := hch
      rw [compressRanges_cons]
      refine ⟨rangeGo_bounds cs c c hchain (Nat.le_refl c),
        rangeGo_pairwise cs c c hchain (Nat.le_refl c), ?_⟩
      intro b
      have hcov := rangeGo_cover cs c c hchain (Nat.le_refl c) b
      constructor
      · intro hb
        rcases List.mem_cons.mp hb with h1 | h1
        · exact hcov.mpr (Or.inl ⟨Nat.le_of_eq h1.symm, Nat.le_of_eq h1⟩)
        · exact hcov.mpr (Or.inr h1)
      · intro hex
        rcases hcov.mp hex with ⟨h1, h2⟩ | hm
        · have hbc : b = c := Nat.le_antisymm h2 h1
          rw [hbc]
          exact List.mem_cons_self c cs
        · exact List.mem_cons_of_mem c hm

/-- Helper: two members of a pairwise-related list are equal or related one
way or the other. -/
theorem pairwise_rel_cases {α : Type} (R : α → α → Prop) :
    ∀ (l : List α), List.Pairwise R l →
      ∀ p ∈ l, ∀ q ∈ l, p = q ∨ R p q ∨ R q p := by
  intro l h
  induction h with
  | nil =>
      intro p hp
      exact absurd hp (List.not_mem_nil p)
  | cons hr _ ih =>
      intro p hp q hq
      rcases List.mem_cons.mp hp with h1 | h1 <;>
        rcases List.mem_cons.mp hq with h2 | h2
      · exact Or.inl (h1.trans h2.symm)
      · subst h1
        exact Or.inr (Or.inl (hr q h2))
      · subst h2
        exact Or.inr (Or.inr (hr p h1))
      · exact ih p h1 q h2

/-- C7: Range compression.  For any byte set (a duplicate-free list), the
emitted interval list covers every byte of the set by exactly one interval
(coverage conjunct plus uniqueness conjunct), contains only bytes of the set
(the coverage biconditional right-to-left), is maximal — consecutive
intervals are separated by a gap of at least one byte, so none could be
merged — and ascends numerically (the pairwise `p.2 + 1 < q.1` conjunct
gives disjointness, order and maximality at once); the computation is total
(a Lean function by construction) and the empty set yields no intervals. -/
theorem C7_range_compression :
    ∀ (byte_set : List Nat), byte_set.Nodup →
      compressRanges (sortBytes []) = []
      ∧ (∀ p ∈ compressRanges (sortBytes byte_set), p.1 ≤ p.2)
      ∧ List.Pairwise (fun p q => p.2 + 1 < q.1)
          (compressRanges (sortBytes byte_set))
      ∧ (∀ b, b ∈ byte_set ↔
          ∃ p ∈ compressRanges (sortBytes byte_set), p.1 ≤ b ∧ b ≤ p.2)
      ∧ (∀ b p q, p ∈ compressRanges (sortBytes byte_set) →
          q ∈ compressRanges (sortBytes byte_set) →
          p.1 ≤ b → b ≤ p.2 → q.1 ≤ b → b ≤ q.2 → p = q) := by
  intro bs hnd
  have hsort : List.Sorted (· ≤ ·) (sortBytes bs) :=
    List.sorted_insertionSort _ _
  have hperm : (sortBytes bs).Perm bs := List.perm_insertionSort _ _
  have hnd' : (sortBytes bs).Nodup := hperm.nodup_iff.mpr hnd
  have hlt : List.Pairwise (· < ·) (sortBytes bs) :=
    (List.Pairwise.and hsort hnd').imp fun h => lt_of_le_of_ne h.1 h.2
  have hch : List.Chain' (· < ·) (sortBytes bs) := hlt.chain'
  obtain ⟨hb, hpw, hcov⟩ := compressRanges_sorted_spec (sortBytes bs) hch
  refine ⟨rfl, hb, hpw, ?_, ?_⟩
  · intro b
    rw [← hperm.mem_iff]
    exact hcov b
  · intro b p q hp hq hpb1 hpb2 hqb1 hqb2
    rcases pairwise_rel_cases _ _ hpw p hp q hq with h | h | h
    · exact h
    · omega
    · omega

/-- C7 witness: the byte set {99, 97, 98, 105} compresses to two intervals;
byte 98 is covered, and every interval is well-formed. -/
theorem C7_witness :
    compressRanges (sortBytes [99, 97, 98, 105]) = [(97, 99), (105, 105)]
    ∧ (∀ p ∈ compressRanges (sortBytes [99, 97, 98, 105]), p.1 ≤ p.2)
    ∧ (98 ∈ ([99, 97, 98, 105] : List Nat) ↔
        ∃ p ∈ compressRanges (sortBytes [99, 97, 98, 105]),
          p.1 ≤ 98 ∧ 98 ≤ p.2) := by
  have h := C7_range_compression [99, 97, 98, 105] (by decide)
  exact ⟨by decide, h.2.1, h.2.2.2.1 98⟩
